import Mathlib

/-!
Shallow embedding of the classification-and-chunking engine of the mr-bot
repository: `src/config.py` (pattern policy and thresholds),
`src/file_filter.py` (`FileFilter.filter_files`) and `src/diff_processor.py`
(`DiffProcessor.process_file`, `_chunk_diff`, `_find_breakpoint`).

Python strings are modelled as Lean `String`s; line lists in the chunker as
`List (List Char)`.  Python's `str.split("\n")` is embedded as `splitNl`,
`len(s.encode("utf-8"))` as `utf8Len`, and the float `size_kb` as an exact
rational (the division is by 1024, so the float arithmetic in the source is
exact for all realistic sizes).  The compiled regular expressions of
`Config` are used with `re.match` (anchored at the start of the string), so
each one denotes an `endsWith`, `contains` or whole-string test, which is
what the embedding spells out.  Numeric thresholds are fixed to the
documented defaults (500 KB, 300 lines, 5 context lines).
-/

namespace MRBot

/-- Bool test: `needle` occurs as a contiguous sublist of `hay`. -/
def containsSub : List Char → List Char → Bool
  | needle, [] => needle.isEmpty
  | needle, c :: t => needle.isPrefixOf (c :: t) || containsSub needle t

/-- String version of `containsSub` (Python's `needle in hay`). -/
def containsStr (needle hay : String) : Bool :=
  containsSub needle.toList hay.toList

/-- Python's `hay.endswith(sfx)`. -/
def endsWithStr (sfx hay : String) : Bool :=
  sfx.toList.isSuffixOf hay.toList

/-- Python's `s.lower()` (character-wise ASCII case mapping). -/
def toLowerStr (p : String) : String :=
  String.mk (p.toList.map Char.toLower)

/-- Python's `len(s.encode("utf-8"))`. -/
def utf8Len (s : String) : Nat :=
  s.toList.foldl (fun n c => n + c.utf8Size) 0

/-- Python's `s.split("\n")`: split a character list at every newline,
keeping empty pieces (one more piece than there are newlines). -/
def splitNl : List Char → List (List Char)
  | [] => [[]]
  | c :: rest =>
    if c = '\n' then [] :: splitNl rest
    else
      match splitNl rest with
      | [] => [[c]]
      | l :: ls => (c :: l) :: ls

namespace Config

/-- `Config.CHUNK_SIZE_LINES` (default of the `CHUNK_SIZE_LINES` env var). -/
def CHUNK_SIZE_LINES : Nat := 300

/-- `Config.CONTEXT_LINES` (default of the `CONTEXT_LINES` env var). -/
def CONTEXT_LINES : Nat := 5

/-- `Config.MAX_FILE_SIZE_KB` (default of the `MAX_FILE_SIZE_KB` env var). -/
def MAX_FILE_SIZE_KB : Nat := 500

/-- `Config.should_skip_file`: `any(pattern.match(filepath) for pattern in
SKIP_PATTERNS)`.  Each regex in `SKIP_PATTERNS` is anchored at the start of
the string by `re.match`; a pattern of shape `.*X$` therefore means
`endswith X`, `.*X.*` means `contains X`, and a bare `X$` (the named lock
files) matches only the exact string `X`. -/
def should_skip_file (p : String) : Bool :=
  -- lock files
  endsWithStr ".lock" p || p == "package-lock.json" || p == "yarn.lock" ||
  p == "poetry.lock" || p == "Pipfile.lock" || p == "composer.lock" ||
  p == "Gemfile.lock" || p == "Cargo.lock" ||
  -- build artifacts
  endsWithStr ".min.js" p || endsWithStr ".min.css" p ||
  containsStr "dist/" p || containsStr "build/" p || containsStr "target/" p ||
  containsStr ".egg-info/" p || containsStr "__pycache__/" p ||
  endsWithStr ".pyc" p || endsWithStr ".pyo" p ||
  -- generated code
  endsWithStr "_pb2.py" p || containsStr ".generated." p ||
  endsWithStr ".pb.go" p || endsWithStr ".pb.js" p ||
  -- binaries and media
  ([".png", ".jpg", ".jpeg", ".gif", ".svg", ".ico", ".webp", ".bmp",
    ".pdf", ".zip", ".tar", ".gz", ".bz2", ".xz",
    ".mp3", ".mp4", ".avi", ".mov", ".wmv",
    ".woff", ".woff2", ".ttf", ".eot", ".otf"].any fun s => endsWithStr s p)

/-- `Config.should_note_only`: any `NOTE_ONLY_PATTERNS` regex matches
(each has shape `.*X$`, i.e. `endswith X`). -/
def should_note_only (p : String) : Bool :=
  endsWithStr ".csv" p || endsWithStr ".tsv" p ||
  endsWithStr ".json.gz" p || endsWithStr ".parquet" p

/-- `Config.is_critical_path`: any `CRITICAL_PATTERNS` regex matches; each
has shape `.*kw.*` with `re.IGNORECASE`, i.e. the lowercased path contains
the keyword. -/
def is_critical_path (p : String) : Bool :=
  ["auth", "security", "api", "middleware", "config",
   "settings", "database", "db"].any fun k => containsStr k (toLowerStr p)

/-- `Config.get_file_priority`. -/
def get_file_priority (p : String) : String :=
  if is_critical_path p then "critical"
  else if containsStr "test" (toLowerStr p) || containsStr "spec" (toLowerStr p) then "low"
  else "normal"

end Config

/-- `gitlab_fetcher.FileChange`. -/
structure FileChange where
  old_path : String
  new_path : String
  diff : String
  status : String
  additions : Int
  deletions : Int
deriving DecidableEq, Repr

/-- The path used for a change: `file_change.new_path or file_change.old_path`
(Python `or`: the new path unless it is the empty string). -/
def pathOf (fc : FileChange) : String :=
  if fc.new_path = "" then fc.old_path else fc.new_path

/-- `file_filter.FilteredFile`. -/
structure FilteredFile where
  file_change : FileChange
  should_review : Bool
  should_chunk : Bool
  priority : String
  skip_reason : Option String := none
  note_only : Bool := false
  size_kb : ℚ := 0
  line_count : Nat := 0
deriving DecidableEq, Repr

/-- `FileFilter._get_skip_reason`. -/
def get_skip_reason (p : String) : String :=
  if endsWithStr ".lock" p || containsStr "lock" (toLowerStr p) then "lock file"
  else if containsStr ".min." (toLowerStr p) then "minified file"
  else if ["dist/", "build/", "target/"].any (fun s => containsStr s (toLowerStr p)) then
    "build artifact"
  else if containsStr "__pycache__" p || endsWithStr ".pyc" p || endsWithStr ".pyo" p then
    "Python cache file"
  else if containsStr "_pb2.py" p || containsStr ".generated." p then "generated code"
  else if [".png", ".jpg", ".jpeg", ".gif", ".svg", ".ico"].any (fun s => endsWithStr s p) then
    "image file"
  else if [".pdf", ".zip", ".tar", ".gz"].any (fun s => endsWithStr s p) then
    "binary/archive file"
  else "matches skip pattern"

/-- The `FilteredFile` built for one non-skipped `FileChange` in the body of
`FileFilter.filter_files` (lines 53-77 of `src/file_filter.py`).
The source's size test is `size_kb > MAX_FILE_SIZE_KB` with
`size_kb = len(diff.encode("utf-8")) / 1024.0`; dividing by 1024 is exact,
so it is the byte comparison used here — `classify_one_should_chunk` below
proves the two forms equal over the exact rational `size_kb`. -/
def classify_one (fc : FileChange) : FilteredFile :=
  let filepath := pathOf fc
  let note_only := Config.should_note_only filepath
  let line_count := fc.diff.toList.count '\n'
  { file_change := fc,
    should_review := !note_only && !(fc.status == "deleted"),
    should_chunk :=
      decide (line_count > Config.CHUNK_SIZE_LINES) ||
      decide (utf8Len fc.diff > 1024 * Config.MAX_FILE_SIZE_KB),
    priority := Config.get_file_priority filepath,
    skip_reason := none,
    note_only := note_only,
    size_kb := (utf8Len fc.diff : ℚ) / 1024,
    line_count := line_count }

/-- `FileFilter.filter_files`, with the instance state `self.skipped_files`
threaded explicitly: called with the current exclusion log, it returns the
list of emitted `FilteredFile`s and the updated log. -/
def filter_files : List FileChange → List (String × String) →
    List FilteredFile × List (String × String)
  | [], log => ([], log)
  | fc :: rest, log =>
    let filepath := pathOf fc
    if Config.should_skip_file filepath then
      filter_files rest (log ++ [(filepath, get_skip_reason filepath)])
    else
      let r := filter_files rest
        (if Config.should_note_only filepath then
          log ++ [(filepath, "large data file (noted but not reviewed)")]
        else log)
      (classify_one fc :: r.1, r.2)

/-- `FileFilter.get_skipped_files`: returns the instance's exclusion log. -/
def get_skipped_files (log : List (String × String)) : List (String × String) :=
  log

/-- The exclusion log held by one `FileFilter` instance after `n` calls of
`filter_files` on the same input, starting from the empty log of
`FileFilter.__init__`. -/
def stateAfterRuns (fcs : List FileChange) : Nat → List (String × String)
  | 0 => []
  | n + 1 => (filter_files fcs (stateAfterRuns fcs n)).2

/-- `diff_processor.DiffChunk` (content as a character list). -/
structure DiffChunk where
  filepath : String
  chunk_number : Nat
  content : List Char
  start_line : Nat
  end_line : Nat
  total_chunks : Nat
deriving DecidableEq, Repr

/-- Python whitespace for `str.strip()` (the ASCII cases). -/
def isPySpace (c : Char) : Bool :=
  c == ' ' || c == '\t' || c == '\n' || c == '\x0b' || c == '\x0c' || c == '\r'

/-- Python's `line.strip()`. -/
def pyStrip (l : List Char) : List Char :=
  ((l.dropWhile isPySpace).reverse.dropWhile isPySpace).reverse

/-- The per-line test inside `DiffProcessor._find_breakpoint`: blank line,
`def `/`class `/`function `/`@` start, or a lone closing bracket. -/
def isBreakLine (l : List Char) : Bool :=
  let s := pyStrip l
  s.isEmpty ||
  "def ".toList.isPrefixOf s || "class ".toList.isPrefixOf s ||
  "function ".toList.isPrefixOf s || "@".toList.isPrefixOf s ||
  s == ['}'] || s == [']'] || s == [')']

/-- The backward scan of `_find_breakpoint`: check indices `i, i-1, ..., start`
and return `some (index + 1)` for the first break line found. -/
def scanBreak (lines : List (List Char)) (start : Nat) : Nat → Option Nat
  | 0 => if isBreakLine (lines.getD 0 []) then some 1 else none
  | i + 1 =>
    if isBreakLine (lines.getD (i + 1) []) then some (i + 2)
    else if i + 1 ≤ start then none
    else scanBreak lines start i

/-- `DiffProcessor._find_breakpoint(lines, start, end)`: scan `end-1` down to
`start` for a break line and return the position after it, or `end` if none
is found (an empty range returns `end` at once). -/
def find_breakpoint (lines : List (List Char)) (start e : Nat) : Nat :=
  if e ≤ start then e
  else
    match scanBreak lines start (e - 1) with
    | some p => p
    | none => e

/-- The chunk end chosen by one iteration of the loop in
`DiffProcessor._chunk_diff`: the tentative end `min(pos + chunk_size,
total)`, replaced by a breakpoint from the 50-line lookback window when one
strictly beyond the cursor is found. -/
def chunkEndAt (lines : List (List Char)) (pos : Nat) : Nat :=
  let t := min (pos + Config.CHUNK_SIZE_LINES) lines.length
  if t < lines.length then
    let bp := find_breakpoint lines (max (t - 50) pos) t
    if pos < bp then bp else t
  else t

/-- The `DiffChunk` emitted by one loop iteration of `_chunk_diff` at cursor
`pos` (with `total_chunks` still 0, back-filled later). -/
def mkChunk (fp : String) (lines : List (List Char)) (pos num : Nat) : DiffChunk :=
  let ce := chunkEndAt lines pos
  let body := (lines.drop pos).take (ce - pos)
  let c0 := List.intercalate ['\n'] body
  { filepath := fp,
    chunk_number := num,
    content :=
      if ce < lines.length ∧ 0 < Config.CONTEXT_LINES then
        let nctx := (lines.drop ce).take (min (ce + Config.CONTEXT_LINES) lines.length - ce)
        if nctx.isEmpty then c0
        else c0 ++ '\n' :: List.intercalate ['\n'] nctx
      else c0,
    start_line := pos + 1,
    end_line := ce,
    total_chunks := 0 }

/-- The while loop of `_chunk_diff`, with an explicit fuel so that the
recursion is structural; `chunk_diff` passes `lines.length` as fuel, which
is enough because the cursor strictly advances on every iteration
(`chunkLoopF_stable` below shows the result does not depend on the fuel once
it covers the remaining lines). -/
def chunkLoopF (fp : String) (lines : List (List Char)) :
    Nat → Nat → Nat → List DiffChunk
  | 0, _, _ => []
  | fuel + 1, pos, num =>
    if pos < lines.length then
      mkChunk fp lines pos num :: chunkLoopF fp lines fuel (chunkEndAt lines pos) (num + 1)
    else []

/-- `DiffProcessor._chunk_diff`: run the loop from cursor 0, chunk number 1,
then back-fill `total_chunks` on every chunk. -/
def chunk_diff (fp : String) (d : String) : List DiffChunk :=
  let lines := splitNl d.toList
  let raw := chunkLoopF fp lines lines.length 0 1
  raw.map fun c => { c with total_chunks := raw.length }

/-- `DiffProcessor.process_file`: a single whole-file chunk when
`should_chunk` is false, otherwise `_chunk_diff`. -/
def process_file (ff : FilteredFile) : List DiffChunk :=
  if ff.should_chunk = false then
    [{ filepath := pathOf ff.file_change,
       chunk_number := 1,
       content := ff.file_change.diff.toList,
       start_line := 1,
       end_line := ff.line_count,
       total_chunks := 1 }]
  else
    chunk_diff (pathOf ff.file_change) ff.file_change.diff

/-- Chunk-list well-formedness from cursor `pos`, chunk number `num`, over
`N` lines: starts at `pos + 1`, consecutive chunk numbers, strictly
advancing contiguous inclusive ranges, ending exactly at `N`. -/
def isChain (N : Nat) : Nat → Nat → List DiffChunk → Prop
  | pos, _, [] => pos = N
  | pos, num, c :: rest =>
    c.start_line = pos + 1 ∧ c.chunk_number = num ∧ pos < c.end_line ∧
    c.end_line ≤ N ∧ isChain N c.end_line (num + 1) rest

/-- Concrete input for claim C1: 301 newline-terminated lines, line 250
blank, every other line the single character `x`. -/
def c1Lines : List (List Char) :=
  (List.range 301).map fun i => if i = 249 then [] else ['x']

/-- The C1 diff text: each of the 301 lines followed by a newline. -/
def c1Diff : String :=
  String.mk (c1Lines.map (fun l => l ++ ['\n'])).flatten

/-- The C1 `FileChange`. -/
def c1FC : FileChange :=
  { old_path := "", new_path := "m.txt", diff := c1Diff,
    status := "modified", additions := 0, deletions := 0 }

/-- A `FileChange` for `vendor/package-lock.json` (claim C2). -/
def vendorLockFC : FileChange :=
  { old_path := "", new_path := "vendor/package-lock.json", diff := "x\n",
    status := "modified", additions := 0, deletions := 0 }

/-- A deleted `FileChange` (claim C7 witness). -/
def delFC : FileChange :=
  { old_path := "m.txt", new_path := "m.txt", diff := "x",
    status := "deleted", additions := 0, deletions := 0 }

/-- A `FileChange` for `data/export.parquet` (claim C8). -/
def parquetFC : FileChange :=
  { old_path := "", new_path := "data/export.parquet", diff := "a,b\n1,2\n",
    status := "modified", additions := 0, deletions := 0 }

/-- A `FileChange` with an empty diff (claim C9). -/
def emptyDiffFC : FileChange :=
  { old_path := "", new_path := "m.txt", diff := "",
    status := "modified", additions := 0, deletions := 0 }

/-- A small `FilteredFile` marked for chunking (witnesses of C3 and C9). -/
def smallChunkFF : FilteredFile :=
  { file_change :=
      { old_path := "", new_path := "f.py", diff := "a\n\nb",
        status := "modified", additions := 0, deletions := 0 },
    should_review := true, should_chunk := true, priority := "normal",
    skip_reason := none, note_only := false, size_kb := 0, line_count := 2 }

end MRBot

set_option maxRecDepth 40000

namespace MRBot

/-- `splitNl` always yields at least one piece. -/
theorem splitNl_ne_nil (cs : List Char) : splitNl cs ≠ [] := by
  induction cs with
  | nil => simp [splitNl]
  | cons c rest ih =>
    rw [splitNl]
    by_cases h : c = '\n'
    · simp [h]
    · rw [if_neg h]
      cases hsp : splitNl rest with
      | nil => simp
      | cons l ls => simp

/-- `splitNl` yields one more piece than there are newline characters. -/
theorem splitNl_length (cs : List Char) :
    (splitNl cs).length = cs.count '\n' + 1 := by
  induction cs with
  | nil => simp [splitNl]
  | cons c rest ih =>
    rw [splitNl]
    by_cases h : c = '\n'
    · simp [h, List.count_cons, ih]
    · rw [if_neg h]
      cases hsp : splitNl rest with
      | nil => exact absurd hsp (splitNl_ne_nil rest)
      | cons l ls =>
        rw [hsp] at ih
        simp only [List.length_cons] at ih ⊢
        have hc : (c :: rest).count '\n' = rest.count '\n' := by
          simp [List.count_cons, h]
        omega

/-- A found breakpoint is at most one past the first scanned index. -/
theorem scanBreak_le (lines : List (List Char)) (start : Nat) :
    ∀ i p, scanBreak lines start i = some p → p ≤ i + 1 := by
  intro i
  induction i with
  | zero =>
    intro p hp
    rw [scanBreak] at hp
    split at hp
    · simp only [Option.some.injEq] at hp
      omega
    · simp at hp
  | succ i ih =>
    intro p hp
    rw [scanBreak] at hp
    split at hp
    · simp only [Option.some.injEq] at hp
      omega
    · split at hp
      · simp at hp
      · have := ih p hp
        omega

/-- `_find_breakpoint` never returns past `end`. -/
theorem find_breakpoint_le (lines : List (List Char)) (start e : Nat) :
    find_breakpoint lines start e ≤ e := by
  rw [find_breakpoint]
  split
  · exact le_rfl
  · cases hsc : scanBreak lines start (e - 1) with
    | none => simp
    | some p =>
      simp only
      have := scanBreak_le lines start (e - 1) p hsc
      omega

/-- Progress: while the cursor is inside the file, the chosen chunk end is
strictly beyond it (the tentative end is, because `CHUNK_SIZE_LINES > 0`,
and a breakpoint is only adopted when it is). -/
theorem chunkEndAt_gt (lines : List (List Char)) (pos : Nat)
    (h : pos < lines.length) : pos < chunkEndAt lines pos := by
  rw [chunkEndAt]
  have hc : Config.CHUNK_SIZE_LINES = 300 := rfl
  simp only
  split
  · split
    · omega
    · omega
  · omega

/-- The chosen chunk end never passes the end of the file. -/
theorem chunkEndAt_le (lines : List (List Char)) (pos : Nat) :
    chunkEndAt lines pos ≤ lines.length := by
  rw [chunkEndAt]
  simp only
  split
  · rename_i ht
    split
    · rename_i hbp
      have := find_breakpoint_le lines
        (max (min (pos + Config.CHUNK_SIZE_LINES) lines.length - 50) pos)
        (min (pos + Config.CHUNK_SIZE_LINES) lines.length)
      omega
    · omega
  · omega

/-- Once the cursor has reached the end, the loop emits nothing. -/
theorem chunkLoopF_nil (fp : String) (lines : List (List Char))
    (fuel pos num : Nat) (h : lines.length ≤ pos) :
    chunkLoopF fp lines fuel pos num = [] := by
  cases fuel with
  | zero => rfl
  | succ f => rw [chunkLoopF, if_neg (by omega)]

/-- Fuel irrelevance: any fuel covering the remaining line count gives the
same chunk list, so `chunk_diff`'s fuel of `lines.length` computes the full
run of the source's `while` loop. -/
theorem chunkLoopF_stable (fp : String) (lines : List (List Char)) :
    ∀ fuel fuel' pos num, lines.length - pos ≤ fuel →
      lines.length - pos ≤ fuel' →
      chunkLoopF fp lines fuel pos num = chunkLoopF fp lines fuel' pos num := by
  intro fuel
  induction fuel with
  | zero =>
    intro fuel' pos num hf hf'
    rw [chunkLoopF_nil fp lines 0 pos num (by omega),
      chunkLoopF_nil fp lines fuel' pos num (by omega)]
  | succ f ih =>
    intro fuel' pos num hf hf'
    by_cases hp : pos < lines.length
    · cases fuel' with
      | zero => omega
      | succ f' =>
        rw [chunkLoopF, chunkLoopF, if_pos hp, if_pos hp]
        have hgt := chunkEndAt_gt lines pos hp
        exact congrArg _ (ih f' (chunkEndAt lines pos) (num + 1)
          (by omega) (by omega))
    · rw [chunkLoopF_nil fp lines _ pos num (by omega),
        chunkLoopF_nil fp lines fuel' pos num (by omega)]

/-- The loop output is a well-formed chain from the current cursor. -/
theorem chunkLoopF_chain (fp : String) (lines : List (List Char)) :
    ∀ fuel pos num, lines.length - pos ≤ fuel → pos ≤ lines.length →
      isChain lines.length pos num (chunkLoopF fp lines fuel pos num) := by
  intro fuel
  induction fuel with
  | zero =>
    intro pos num hf hle
    rw [chunkLoopF]
    exact (by omega : pos = lines.length)
  | succ f ih =>
    intro pos num hf hle
    by_cases hp : pos < lines.length
    · rw [chunkLoopF, if_pos hp]
      have hgt := chunkEndAt_gt lines pos hp
      have hle2 := chunkEndAt_le lines pos
      exact ⟨rfl, rfl, hgt, hle2, ih (chunkEndAt lines pos) (num + 1)
        (by omega) hle2⟩
    · rw [chunkLoopF_nil fp lines _ pos num (by omega)]
      exact (by omega : pos = lines.length)

/-- Back-filling `total_chunks` preserves the chain structure. -/
theorem isChain_map_total (N t : Nat) :
    ∀ pos num l, isChain N pos num l →
      isChain N pos num (l.map fun c => { c with total_chunks := t }) := by
  intro pos num l
  induction l generalizing pos num with
  | nil => exact fun h => h
  | cons c rest ih =>
    intro h
    obtain ⟨h1, h2, h3, h4, h5⟩ := h
    exact ⟨h1, h2, h3, h4, ih c.end_line (num + 1) h5⟩

/-- A nonempty chain ends exactly at line `N`. -/
theorem isChain_getLast (N : Nat) :
    ∀ l pos num, isChain N pos num l → pos < N →
      ∃ c, l.getLast? = some c ∧ c.end_line = N := by
  intro l
  induction l with
  | nil =>
    intro pos num h hlt
    have hpn : pos = N := h
    omega
  | cons c rest ih =>
    intro pos num h hlt
    obtain ⟨h1, h2, h3, h4, h5⟩ := h
    cases rest with
    | nil => exact ⟨c, List.getLast?_singleton c, h5⟩
    | cons c' rest' =>
      have hlt' : c.end_line < N := by
        obtain ⟨e1, e2, e3, e4, e5⟩ := h5
        omega
      obtain ⟨cl, hc1, hc2⟩ := ih c.end_line (num + 1) h5 hlt'
      exact ⟨cl, by rw [List.getLast?_cons_cons]; exact hc1, hc2⟩

/-- `_chunk_diff` output is a chain covering lines 1 to the number of line
elements of the diff, with chunk numbers from 1. -/
theorem chunk_diff_chain (fp d : String) :
    isChain (splitNl d.toList).length 0 1 (chunk_diff fp d) := by
  rw [chunk_diff]
  exact isChain_map_total _ _ _ _ _
    (chunkLoopF_chain fp (splitNl d.toList) (splitNl d.toList).length 0 1
      (by omega) (by omega))

/-- `_chunk_diff` always emits at least one chunk. -/
theorem chunk_diff_ne_nil (fp d : String) : chunk_diff fp d ≠ [] := by
  rw [chunk_diff]
  simp only [ne_eq, List.map_eq_nil_iff]
  have hlen : 0 < (splitNl d.toList).length := by
    rw [splitNl_length]; omega
  cases hl : (splitNl d.toList).length with
  | zero => omega
  | succ n =>
    rw [chunkLoopF, if_pos (by omega)]
    simp

/-- Every chunk of `_chunk_diff` carries the final chunk count. -/
theorem chunk_diff_total (fp d : String) :
    ∀ c ∈ chunk_diff fp d, c.total_chunks = (chunk_diff fp d).length := by
  intro c hc
  rw [chunk_diff] at hc ⊢
  simp only [List.mem_map, List.length_map] at hc ⊢
  obtain ⟨c0, _, hc0⟩ := hc
  rw [← hc0]

/-- The last chunk of `_chunk_diff` ends at the last line element. -/
theorem chunk_diff_getLast (fp d : String) :
    ∃ c, (chunk_diff fp d).getLast? = some c ∧
      c.end_line = (splitNl d.toList).length := by
  have hlen : 0 < (splitNl d.toList).length := by
    rw [splitNl_length]; omega
  obtain ⟨c, hc1, hc2⟩ := isChain_getLast (splitNl d.toList).length
    (chunkLoopF fp (splitNl d.toList) (splitNl d.toList).length 0 1) 0 1
    (chunkLoopF_chain fp (splitNl d.toList) (splitNl d.toList).length 0 1
      (by omega) (by omega)) hlen
  refine ⟨{ c with total_chunks :=
    (chunkLoopF fp (splitNl d.toList) (splitNl d.toList).length 0 1).length }, ?_, hc2⟩
  rw [chunk_diff]
  simp only [List.getLast?_map, hc1, Option.map_some']

/-- The source's chunk test `line_count > CHUNK_SIZE_LINES or size_kb >
MAX_FILE_SIZE_KB` agrees with the byte comparison used in `classify_one`:
`size_kb` is the exact rational `bytes / 1024`. -/
theorem classify_one_should_chunk (fc : FileChange) :
    (classify_one fc).should_chunk =
      (decide ((classify_one fc).line_count > Config.CHUNK_SIZE_LINES) ||
       decide ((classify_one fc).size_kb > (Config.MAX_FILE_SIZE_KB : ℚ))) := by
  have hs : (classify_one fc).size_kb = (utf8Len fc.diff : ℚ) / 1024 := rfl
  show (decide _ || decide (utf8Len fc.diff > 1024 * Config.MAX_FILE_SIZE_KB)) =
    (decide _ || decide _)
  congr 1
  rw [decide_eq_decide, hs]
  rw [gt_iff_lt, gt_iff_lt, lt_div_iff₀ (by norm_num : (0:ℚ) < 1024)]
  rw [show ((Config.MAX_FILE_SIZE_KB : ℚ) * 1024) =
    ((1024 * Config.MAX_FILE_SIZE_KB : ℕ) : ℚ) by push_cast; ring]
  exact_mod_cast Iff.rfl

theorem filter_files_fst (fcs : List FileChange) :
    ∀ log, (filter_files fcs log).1 = (filter_files fcs []).1 := by
  induction fcs with
  | nil => intro log; rfl
  | cons fc rest ih =>
    intro log
    cases hs : Config.should_skip_file (pathOf fc) with
    | true =>
      simp only [filter_files, hs, if_true]
      simp [ih]
    | false =>
      simp only [filter_files, hs, Bool.false_eq_true, if_false]
      simp [ih]

theorem filter_files_snd (fcs : List FileChange) :
    ∀ log, (filter_files fcs log).2 = log ++ (filter_files fcs []).2 := by
  induction fcs with
  | nil => intro log; simp [filter_files]
  | cons fc rest ih =>
    intro log
    cases hs : Config.should_skip_file (pathOf fc) with
    | true =>
      simp only [filter_files, hs, if_true]
      rw [ih, ih ([] ++ [(pathOf fc, get_skip_reason (pathOf fc))])]
      simp
    | false =>
      simp only [filter_files, hs, Bool.false_eq_true, if_false]
      cases hn : Config.should_note_only (pathOf fc) with
      | true =>
        simp only [hn, if_true]
        rw [ih, ih ([] ++ [(pathOf fc, "large data file (noted but not reviewed)")])]
        simp
      | false =>
        simp only [hn, Bool.false_eq_true, if_false]
        rw [ih]

theorem filter_files_mem (fcs : List FileChange) :
    ∀ log g, g ∈ (filter_files fcs log).1 →
      ∃ fc ∈ fcs, g = classify_one fc ∧
        Config.should_skip_file (pathOf fc) = false := by
  induction fcs with
  | nil => intro log g hg; simp [filter_files] at hg
  | cons fc rest ih =>
    intro log g hg
    cases hs : Config.should_skip_file (pathOf fc) with
    | true =>
      simp only [filter_files, hs, if_true] at hg
      obtain ⟨fc', hmem, hcl, hsk⟩ := ih _ g hg
      exact ⟨fc', List.mem_cons_of_mem fc hmem, hcl, hsk⟩
    | false =>
      simp only [filter_files, hs, Bool.false_eq_true, if_false, List.mem_cons] at hg
      cases hg with
      | inl h => exact ⟨fc, List.mem_cons_self fc rest, h, hs⟩
      | inr h =>
        obtain ⟨fc', hmem, hcl, hsk⟩ := ih _ g h
        exact ⟨fc', List.mem_cons_of_mem fc hmem, hcl, hsk⟩


/-- Claim C3 (confirmed): for every file that is chunked (`should_chunk`
true), the emitted chunks' inclusive line ranges partition lines `1..N` of
the `N` line elements the chunker works over — contiguous, no gaps, no
overlaps, each chunk starting right after the previous one ends — chunk
numbers run `1..totalChunks` in increasing order, and every chunk carries
the same final `total_chunks` count. -/
theorem chunk_partition (ff : FilteredFile) (h : ff.should_chunk = true) :
    process_file ff ≠ [] ∧
    isChain (splitNl ff.file_change.diff.toList).length 0 1 (process_file ff) ∧
    ∀ c ∈ process_file ff, c.total_chunks = (process_file ff).length := by
  have hpf : process_file ff =
      chunk_diff (pathOf ff.file_change) ff.file_change.diff := by
    rw [process_file, h]; simp
  rw [hpf]
  exact ⟨chunk_diff_ne_nil _ _, chunk_diff_chain _ _, chunk_diff_total _ _⟩

/-- Witness for `chunk_partition` at a concrete chunked file. -/
theorem chunk_partition_witness :
    smallChunkFF.should_chunk = true ∧
    (process_file smallChunkFF ≠ [] ∧
     isChain (splitNl smallChunkFF.file_change.diff.toList).length 0 1
       (process_file smallChunkFF) ∧
     ∀ c ∈ process_file smallChunkFF,
       c.total_chunks = (process_file smallChunkFF).length) :=
  ⟨rfl, chunk_partition smallChunkFF rfl⟩

/-- Claim C4 (confirmed): the chunking loop strictly advances: at any cursor
inside the file the chosen chunk end is strictly greater than the cursor and
at most the total line count; it is either an adopted breakpoint (adopted
only when strictly beyond the cursor) or the tentative end
`min(cursor + chunk_size, totalLines)`; any fuel covering the remaining
lines yields the same completed run (the loop terminates), and the last
chunk ends exactly at `totalLines`. -/
theorem chunk_progress (fp : String) (lines : List (List Char))
    (pos num fuel : Nat) (h : pos < lines.length)
    (hf : lines.length - pos ≤ fuel) :
    pos < chunkEndAt lines pos ∧ chunkEndAt lines pos ≤ lines.length ∧
    ((pos < find_breakpoint lines
        (max (min (pos + Config.CHUNK_SIZE_LINES) lines.length - 50) pos)
        (min (pos + Config.CHUNK_SIZE_LINES) lines.length) ∧
      chunkEndAt lines pos = find_breakpoint lines
        (max (min (pos + Config.CHUNK_SIZE_LINES) lines.length - 50) pos)
        (min (pos + Config.CHUNK_SIZE_LINES) lines.length)) ∨
     chunkEndAt lines pos = min (pos + Config.CHUNK_SIZE_LINES) lines.length) ∧
    chunkLoopF fp lines fuel pos num =
      chunkLoopF fp lines (lines.length - pos) pos num ∧
    ∃ c, (chunkLoopF fp lines fuel pos num).getLast? = some c ∧
      c.end_line = lines.length := by
  refine ⟨chunkEndAt_gt lines pos h, chunkEndAt_le lines pos, ?_,
    chunkLoopF_stable fp lines fuel (lines.length - pos) pos num hf le_rfl, ?_⟩
  · rw [chunkEndAt]
    simp only
    split
    · split
      · rename_i h1 h2
        exact Or.inl ⟨h2, rfl⟩
      · exact Or.inr rfl
    · exact Or.inr rfl
  · exact isChain_getLast lines.length _ pos num
      (chunkLoopF_chain fp lines fuel pos num hf (by omega)) h

/-- Witness for `chunk_progress` at a concrete two-line file. -/
theorem chunk_progress_witness :
    ((0:Nat) < [[('a':Char)], [('b':Char)]].length ∧
     [[('a':Char)], [('b':Char)]].length - 0 ≤ 2) ∧
    (0 < chunkEndAt [[('a':Char)], [('b':Char)]] 0 ∧
     chunkEndAt [[('a':Char)], [('b':Char)]] 0 ≤ [[('a':Char)], [('b':Char)]].length ∧
     ((0 < find_breakpoint [[('a':Char)], [('b':Char)]]
         (max (min (0 + Config.CHUNK_SIZE_LINES) [[('a':Char)], [('b':Char)]].length - 50) 0)
         (min (0 + Config.CHUNK_SIZE_LINES) [[('a':Char)], [('b':Char)]].length) ∧
       chunkEndAt [[('a':Char)], [('b':Char)]] 0 = find_breakpoint [[('a':Char)], [('b':Char)]]
         (max (min (0 + Config.CHUNK_SIZE_LINES) [[('a':Char)], [('b':Char)]].length - 50) 0)
         (min (0 + Config.CHUNK_SIZE_LINES) [[('a':Char)], [('b':Char)]].length)) ∨
      chunkEndAt [[('a':Char)], [('b':Char)]] 0 =
        min (0 + Config.CHUNK_SIZE_LINES) [[('a':Char)], [('b':Char)]].length) ∧
     chunkLoopF "f" [[('a':Char)], [('b':Char)]] 2 0 1 =
       chunkLoopF "f" [[('a':Char)], [('b':Char)]] ([[('a':Char)], [('b':Char)]].length - 0) 0 1 ∧
     ∃ c, (chunkLoopF "f" [[('a':Char)], [('b':Char)]] 2 0 1).getLast? = some c ∧
       c.end_line = [[('a':Char)], [('b':Char)]].length) :=
  ⟨⟨by decide, by decide⟩,
   chunk_progress "f" [[('a':Char)], [('b':Char)]] 0 1 2 (by decide) (by decide)⟩

/-- Claim C5 (confirmed): re-running `filter_files` on the same input
sequence — with the exclusion log the first run left behind — returns
exactly the same `FilteredFile` sequence, field for field, as the first
run. -/
theorem classify_idempotent (fcs : List FileChange) :
    (filter_files fcs (filter_files fcs []).2).1 = (filter_files fcs []).1 :=
  filter_files_fst fcs _

/-- Claim C10 (confirmed): the exclusion log is instance state that is
appended to and never reset: after `n` calls of `filter_files` on the same
input with the same `FileFilter` instance, `get_skipped_files` returns the
single-run exclusion log repeated `n` times. -/
theorem skipped_log_accumulates (fcs : List FileChange) (n : Nat) :
    get_skipped_files (stateAfterRuns fcs n) =
      (List.replicate n (filter_files fcs []).2).flatten := by
  induction n with
  | zero => rfl
  | succ m ih =>
    show (filter_files fcs (stateAfterRuns fcs m)).2 = _
    rw [filter_files_snd]
    have ih' : stateAfterRuns fcs m =
        (List.replicate m (filter_files fcs []).2).flatten := ih
    rw [ih', List.replicate_succ', List.flatten_append]
    simp

/-- Claim C6 (confirmed): every path matching one of the critical-path
keywords case-insensitively has priority "critical", even when its
lowercase form also contains "test" or "spec" — in particular
`src/auth/login_test.py`, whose lowercase form contains "test"; otherwise
the priority is "low" exactly when the lowercase path contains "test" or
"spec", and "normal" in all remaining cases. -/
theorem critical_wins (p : String) (h : Config.is_critical_path p = true) :
    Config.get_file_priority p = "critical" ∧
    Config.get_file_priority "src/auth/login_test.py" = "critical" ∧
    containsStr "test" (toLowerStr "src/auth/login_test.py") = true ∧
    ∀ q : String, Config.get_file_priority q =
      if Config.is_critical_path q then "critical"
      else if containsStr "test" (toLowerStr q) || containsStr "spec" (toLowerStr q) then "low"
      else "normal" := by
  refine ⟨by simp [Config.get_file_priority, h], by decide, by decide, fun q => rfl⟩

/-- Witness for `critical_wins` at `src/auth/login_test.py`. -/
theorem critical_wins_witness :
    Config.is_critical_path "src/auth/login_test.py" = true ∧
    (Config.get_file_priority "src/auth/login_test.py" = "critical" ∧
     Config.get_file_priority "src/auth/login_test.py" = "critical" ∧
     containsStr "test" (toLowerStr "src/auth/login_test.py") = true ∧
     ∀ q : String, Config.get_file_priority q =
       if Config.is_critical_path q then "critical"
       else if containsStr "test" (toLowerStr q) || containsStr "spec" (toLowerStr q) then "low"
       else "normal") :=
  ⟨by decide, critical_wins "src/auth/login_test.py" (by decide)⟩

/-- Claim C7 (confirmed): every emitted Classification has `should_review`
true iff the file is not note-only and its status is not "deleted" (so any
file with status "deleted" gets `should_review = false`), and no
Classification is ever emitted for a path the skip patterns match. -/
theorem review_gate (fcs : List FileChange) (g : FilteredFile)
    (h : g ∈ (filter_files fcs []).1) :
    g.should_review = (!g.note_only && !(g.file_change.status == "deleted")) ∧
    Config.should_skip_file (pathOf g.file_change) = false := by
  obtain ⟨fc, _, hcl, hsk⟩ := filter_files_mem fcs [] g h
  subst hcl
  exact ⟨rfl, hsk⟩

/-- Witness for `review_gate` at a concrete deleted file, which indeed has
`should_review = false`. -/
theorem review_gate_witness :
    classify_one delFC ∈ (filter_files [delFC] []).1 ∧
    ((classify_one delFC).should_review =
       (!(classify_one delFC).note_only &&
        !((classify_one delFC).file_change.status == "deleted")) ∧
     Config.should_skip_file (pathOf (classify_one delFC).file_change) = false) ∧
    (classify_one delFC).should_review = false := by
  have hmem : classify_one delFC ∈ (filter_files [delFC] []).1 := by
    have hsk : Config.should_skip_file (pathOf delFC) = false := by decide
    simp [filter_files, hsk]
  exact ⟨hmem, review_gate [delFC] (classify_one delFC) hmem, by decide⟩


/-- Claim C2 (code_bug): contrary to the claim, `should_skip_file` returns
`false` for `vendor/package-lock.json` — `re.match` anchors the pattern
`package-lock\.json$` at position 0, so only a bare `package-lock.json`
matches — hence the file is classified (one Classification emitted, empty
exclusion log) instead of being excluded; the reason function would have
produced "lock file" as the spec says. -/
theorem package_lock_eval :
    Config.should_skip_file "vendor/package-lock.json" = false ∧
    Config.should_skip_file "package-lock.json" = true ∧
    get_skip_reason "vendor/package-lock.json" = "lock file" ∧
    (filter_files [vendorLockFC] []).1.length = 1 ∧
    (filter_files [vendorLockFC] []).2 = [] := by
  refine ⟨by decide, by decide, by decide, by decide, by decide⟩

/-- Claim C8 (confirmed): for the path `data/export.parquet` the emitted
Classification has `note_only = true` and `should_review = false`, it is
retained in the output sequence, and the path appears exactly once in the
exclusion log, with reason "large data file (noted but not reviewed)". -/
theorem parquet_note_only :
    (filter_files [parquetFC] []).1.map
      (fun g => (g.note_only, g.should_review)) = [(true, false)] ∧
    (filter_files [parquetFC] []).2 =
      [("data/export.parquet", "large data file (noted but not reviewed)")] := by
  refine ⟨by decide, by decide⟩

/-- Claim C1 (counterexample): for a `FileChange` whose diff is 301
newline-terminated lines with a blank line at line 250, under the default
`CHUNK_SIZE_LINES = 300`, processing does NOT produce chunks spanning lines
1-250 and 251-301 as the claim states. -/
theorem c1_counterexample :
    (filter_files [c1FC] []).1.map
      (fun g => (process_file g).map fun c => (c.start_line, c.end_line)) ≠
    [[(1, 250), (251, 301)]] := by decide

/-- Claim C1 (amended): for that same diff the chunker works over 302 line
elements (301 lines plus the trailing empty element); the blank line at
line 250 lies just outside the 50-line lookback window of the tentative end
300 (the window covers lines 251-300), so no boundary is found: processing
chunks the file into chunk 1 spanning lines 1-300 and chunk 2 spanning
lines 301-302, with `total_chunks = 2` recorded on both. -/
theorem c1_amended :
    c1Diff.toList.count '\n' = 301 ∧
    (splitNl c1Diff.toList).length = 302 ∧
    (splitNl c1Diff.toList).getD 249 ['x'] = [] ∧
    (filter_files [c1FC] []).1.map
      (fun g => (g.should_chunk, (process_file g).map fun c =>
        (c.start_line, c.end_line, c.chunk_number, c.total_chunks))) =
      [(true, [(1, 300, 1, 2), (301, 302, 2, 2)])] := by
  refine ⟨by decide, by decide, by decide, by decide⟩

/-- Claim C9 (confirmed): the classification's `line_count` is the number of
newline characters of the diff, while the chunker splits the diff into
`line_count + 1` line elements; consequently the last chunk of any chunked
file ends at line `line_count + 1`, and the empty diff — never chunked —
yields a single chunk with `start_line = 1` and `end_line = 0`. -/
theorem line_count_consistency (ff : FilteredFile) (h : ff.should_chunk = true) :
    (∀ d : String, (splitNl d.toList).length = d.toList.count '\n' + 1) ∧
    (∀ fcs : List FileChange, ∀ g ∈ (filter_files fcs []).1,
      g.line_count = g.file_change.diff.toList.count '\n') ∧
    (∃ c, (process_file ff).getLast? = some c ∧
      c.end_line = ff.file_change.diff.toList.count '\n' + 1) ∧
    (filter_files [emptyDiffFC] []).1.map
      (fun g => (process_file g).map fun c => (c.start_line, c.end_line)) =
      [[(1, 0)]] := by
  refine ⟨fun d => splitNl_length d.toList, ?_, ?_, by decide⟩
  · intro fcs g hg
    obtain ⟨fc, _, hcl, _⟩ := filter_files_mem fcs [] g hg
    subst hcl
    rfl
  · have hpf : process_file ff =
        chunk_diff (pathOf ff.file_change) ff.file_change.diff := by
      rw [process_file, h]; simp
    rw [hpf]
    obtain ⟨c, hc1, hc2⟩ :=
      chunk_diff_getLast (pathOf ff.file_change) ff.file_change.diff
    exact ⟨c, hc1, by rw [hc2, splitNl_length]⟩

/-- Witness for `line_count_consistency` at a concrete chunked file. -/
theorem line_count_consistency_witness :
    smallChunkFF.should_chunk = true ∧
    ((∀ d : String, (splitNl d.toList).length = d.toList.count '\n' + 1) ∧
     (∀ fcs : List FileChange, ∀ g ∈ (filter_files fcs []).1,
       g.line_count = g.file_change.diff.toList.count '\n') ∧
     (∃ c, (process_file smallChunkFF).getLast? = some c ∧
       c.end_line = smallChunkFF.file_change.diff.toList.count '\n' + 1) ∧
     (filter_files [emptyDiffFC] []).1.map
       (fun g => (process_file g).map fun c => (c.start_line, c.end_line)) =
       [[(1, 0)]]) :=
  ⟨rfl, line_count_consistency smallChunkFF rfl⟩

end MRBot
